import Mathlib

/-!
Verification of the `ufedmm` analysis and integrator modules.

This file gives a shallow embedding, in Lean 4, of the parts of
`ufedmm/analysis.py` and `ufedmm/integrators.py` that the verified claims
talk about, together with theorems settling those claims.

Conventions of the embedding:
* Python/numpy floating point numbers are modelled as rationals (`ℚ`)
  wherever only field arithmetic and comparisons occur; the transcendental
  functions `np.exp`, `np.cos`, `np.sin`, `sqrt` and the least-squares
  solver `np.linalg.lstsq` are abstracted as oracle function parameters,
  since the claims under study are about control flow, data shapes and
  algebraic structure rather than about the numerical values of those
  functions.  For the one claim that is genuinely about calculus (the
  mean-force/potential derivative identity) a real-valued (`ℝ`) copy of
  the kernel definitions is used, with the genuine `Real.exp`, `Real.cos`
  and `Real.sin`.
* Fallible Python code (numpy `ValueError`, list `IndexError`) is modelled
  with `Except`.
* The OpenMM `CustomIntegrator` computation list is modelled as a small
  step language with an explicit expression AST, built through a builder
  that mirrors OpenMM's `addComputePerDof` / `beginWhileBlock` /
  `endBlock` API, and executed by a fuel-based interpreter.
-/

/-! ## Collective variables and the analyzer constructor (`analysis.py`) -/

/-- A collective-variable descriptor, as used by `Analyzer`.  The class
itself lives in `ufedmm/ufedmm.py`; the fields modelled here are the ones
`analysis.py` reads: `periodic`, `min_value`, `max_value`,
`force_constant` and `_range` (the period length of a periodic CV). -/
structure CollectiveVariable where
  periodic : Bool
  min_value : ℚ
  max_value : ℚ
  force_constant : ℚ
  _range : ℚ
deriving DecidableEq, Repr

/-- `np.rint`: round to nearest integer, ties to even. -/
def rint (q : ℚ) : ℤ :=
  let n := ⌊q⌋
  let frac := q - n
  if frac < 1/2 then n
  else if 1/2 < frac then n + 1
  else if Even n then n else n + 1

/-- The restraint force accumulated during binning
(`Analyzer.__init__`, the local `function(dx)`):
`force_constant*(dx - _range*np.rint(dx/_range))` for a periodic CV and
`force_constant*dx` otherwise. -/
def restraintForce (cv : CollectiveVariable) (dx : ℚ) : ℚ :=
  if cv.periodic then
    cv.force_constant * (dx - cv._range * (rint (dx / cv._range) : ℚ))
  else
    cv.force_constant * dx

/-- The bin index of a sample value `x` along one dimension of a uniform
histogram with `b` bins over `[lo, hi]` (the behaviour of
`scipy.stats.binned_statistic_dd`, an external collaborator: values
outside the range are dropped, the right edge belongs to the last bin). -/
def binIndex (b : ℕ) (lo hi x : ℚ) : Option ℕ :=
  if b = 0 then none
  else if x < lo ∨ hi < x then none
  else if hi ≤ x then some (b - 1)
  else some (min (b - 1) (Int.toNat ⌊(x - lo) * b / (hi - lo)⌋))

/-- The flattened (C-order) cell index of a multidimensional sample. -/
def cellIndex (bins : List ℕ) (ranges : List (ℚ × ℚ)) (pt : List ℚ) : Option ℕ :=
  (bins.zip (ranges.zip pt)).foldl
    (fun acc p => do
      let a ← acc
      let i ← binIndex p.1 p.2.1.1 p.2.1.2 p.2.2
      some (a * p.1 + i))
    (some 0)

/-- Total number of cells of the flattened histogram. -/
def numCells (bins : List ℕ) : ℕ := bins.foldl (· * ·) 1

/-- Per-cell sample counts of the flattened histogram
(`binned_statistic_dd(..., statistic='count')`, flattened). -/
def cellCounts (bins : List ℕ) (ranges : List (ℚ × ℚ)) (rows : List (List ℚ)) : List ℕ :=
  (List.range (numCells bins)).map
    (fun c => (rows.filter (fun r => cellIndex bins ranges r = some c)).length)

/-- Per-cell mean of one value column
(`binned_statistic_dd(..., statistic='mean')`, flattened).  A cell with no
samples gets the junk value `0` standing in for numpy's NaN; such cells
are filtered away before use. -/
def cellMeans (bins : List ℕ) (ranges : List (ℚ × ℚ)) (rows : List (List ℚ))
    (vals : List ℚ) : List ℚ :=
  (List.range (numCells bins)).map
    (fun c =>
      let sel := ((rows.zip vals).filter (fun p => cellIndex bins ranges p.1 = some c)).map
        Prod.snd
      sel.sum / (sel.length : ℚ))

/-- Fancy indexing `xs[index]` with `index = np.where(counts > 0)`:
keep the entries of `xs` at the positions where `counts` is positive. -/
def selectPositive (counts : List ℕ) (xs : List ℚ) : List ℚ :=
  ((counts.zip xs).filter (fun p => 0 < p.1)).map Prod.snd

/-- The state an `Analyzer` holds after construction: `self.histogram`,
`self.centers`, `self.mean_forces`. -/
structure AnalyzerResult where
  histogram : List ℕ
  centers : List (List ℚ)
  mean_forces : List (List ℚ)
deriving DecidableEq, Repr

/-- `Analyzer.__init__`: bin the extended-variable samples (`sCols`, the
`s_{cv.id}` columns) over the CV ranges, also averaging the sampled
positions and the restraint forces (computed from the CV columns
`cvCols`) per cell; then keep only the non-empty cells.  `bins` is the
per-dimension bin-count list `self._bins`. -/
def analyzerInit (vars : List CollectiveVariable) (cvCols sCols : List (List ℚ))
    (bins : List ℕ) : AnalyzerResult :=
  let n := vars.length
  let sample := sCols
  let forces := (vars.zip (cvCols.zip sCols)).map
    (fun p => (p.2.1.zip p.2.2).map (fun q => restraintForce p.1 (q.1 - q.2)))
  let ranges := vars.map (fun cv => (cv.min_value, cv.max_value))
  let m := (sample.headD []).length
  let rows := (List.range m).map (fun r => sample.map (fun col => col.getD r 0))
  let counts := cellCounts bins ranges rows
  let meansAll := (sample ++ forces).map (fun col => cellMeans bins ranges rows col)
  { histogram := counts.filter (fun c => 0 < c)
  , centers := (List.range n).map (fun i => selectPositive counts (meansAll.getD i []))
  , mean_forces :=
      (List.range n).map (fun i => selectPositive counts (meansAll.getD (n + i) [])) }

/-! ## The `free_energy_functions` fitting pipeline (`analysis.py`) -/

/-- Python-level error outcomes relevant to `free_energy_functions`:
`ValueError` (numpy, e.g. `np.vstack` on an empty list), `IndexError`
(list indexing), and the `InsufficientDataError` that the specification's
error taxonomy postulates (no such class exists in the code; the
constructor is included so that the spec's claim about it can be stated). -/
inductive PyErr where
  | valueError
  | indexError
  | insufficientData
deriving DecidableEq, Repr

/-- Oracles abstracting numpy's transcendental functions, `np.pi` and the
minimum-norm least-squares solver `np.linalg.lstsq` (returning only the
solution vector, as the code discards the other outputs). -/
structure FitOracles where
  fexp : ℚ → ℚ
  fcos : ℚ → ℚ
  fsin : ℚ → ℚ
  pi : ℚ
  lstsq : List (List ℚ) → List ℚ → List ℚ

/-- Modelled from the spec: `_standardize` from `ufedmm/ufedmm.py` is not
under `src/`; per the spec it performs "physical-unit normalization" of a
supplied quantity.  On already-unitless numbers it is the identity, which
is how it is modelled here. -/
def standardize (q : ℚ) : ℚ := q

/-- The `sigma` keyword argument of `free_energy_functions`: absent, a
scalar, or a per-dimension list. -/
inductive SigmaArg where
  | none
  | scalar (s : ℚ)
  | list (l : List ℚ)
deriving DecidableEq, Repr

/-- The variance list computed at the top of `free_energy_functions`:
`[(cv._range/self._bins[i])**2 for i, cv in enumerate(...)]` when `sigma`
is `None` (an out-of-range `self._bins[i]` raises `IndexError`), else the
squared standardized scalar replicated, else the squared standardized
entries of the list (no length check). -/
def variancesOf (vars : List CollectiveVariable) (bins : List ℕ) :
    SigmaArg → Except PyErr (List ℚ)
  | SigmaArg.none =>
      (List.range vars.length).mapM (fun i =>
        match bins.get? i, vars.get? i with
        | some b, some cv => Except.ok ((cv._range / (b : ℚ)) ^ 2)
        | _, _ => Except.error PyErr.indexError)
  | SigmaArg.scalar s => Except.ok (List.replicate vars.length ((standardize s) ^ 2))
  | SigmaArg.list l => Except.ok (l.map (fun v => (standardize v) ^ 2))

/-- The environment shared by the kernel closures built in the
`for cv, variance in zip(...)` loop of `free_energy_functions`.  The
lambdas appended to `exponent` and `derivative` close over the loop-local
names `variance` and `factor` *by reference* (Python late binding): when
any of them is called — which only happens after the loop has finished —
`variance` holds the value from the final iteration of the loop and
`factor` holds `2*np.pi/cv._range` for the last *periodic* CV of the
loop.  Only the branch taken (`cv.periodic`) is fixed per dimension at
closure-creation time. -/
structure ClosureEnv where
  pairs : List (CollectiveVariable × ℚ)
  vFin : ℚ
  fFin : ℚ
deriving DecidableEq, Repr

/-- Build the closure environment from the variables and variances, as
the loop leaves it. -/
def mkClosureEnv (o : FitOracles) (vars : List CollectiveVariable)
    (variances : List ℚ) : ClosureEnv :=
  let pairs := vars.zip variances
  { pairs := pairs
  , vFin := ((pairs.getLast?).map Prod.snd).getD 0
  , fFin := (((pairs.filter (fun p => p.1.periodic)).getLast?).map
      (fun p => 2 * o.pi / p.1._range)).getD 0 }

/-- Calling `exponent[i](x)` after the loop: the branch is dimension
`i`'s, the captured `variance` and `factor` are the loop-final ones. -/
def exponentAt (o : FitOracles) (env : ClosureEnv) (i : ℕ) (x : ℚ) : ℚ :=
  match env.pairs.get? i with
  | some p =>
      if p.1.periodic then (o.fcos (env.fFin * x) - 1) / env.vFin
      else -(1/2) * x ^ 2 / env.vFin
  | none => 0

/-- Calling `derivative[i](x)` after the loop. -/
def derivativeAt (o : FitOracles) (env : ClosureEnv) (i : ℕ) (x : ℚ) : ℚ :=
  match env.pairs.get? i with
  | some p =>
      if p.1.periodic then -o.fsin (env.fFin * x) * env.fFin / env.vFin
      else -x / env.vFin
  | none => 0

/-- `kernel(x) = np.exp(np.sum(exponent[i](x[i]) for i in range(n)))`.
Accessing `exponent[i]` for `i` beyond the closure list (which has
`min(n, len(variances))` entries, `zip` stopping at the shorter input)
raises `IndexError`. -/
def kernelQ (o : FitOracles) (env : ClosureEnv) (n : ℕ) (x : List ℚ) :
    Except PyErr ℚ :=
  if n ≤ env.pairs.length then
    Except.ok (o.fexp (((List.range n).map (fun i => exponentAt o env i (x.getD i 0))).sum))
  else Except.error PyErr.indexError

/-- `gradient(x, i) = kernel(x)*derivative[i](x[i])`. -/
def gradientQ (o : FitOracles) (env : ClosureEnv) (n : ℕ) (x : List ℚ) (i : ℕ) :
    Except PyErr ℚ := do
  let k ← kernelQ o env n x
  Except.ok (k * derivativeAt o env i (x.getD i 0))

/-- `zip(*cols)`: the rows of a list of columns, stopping at the shortest
column (the anchor points `centers` built from `self.centers`). -/
def pyZip (cols : List (List ℚ)) : List (List ℚ) :=
  match cols with
  | [] => []
  | c :: cs =>
      (List.range (cs.foldl (fun a col => min a col.length) c.length)).map
        (fun r => (c :: cs).map (fun col => col.getD r 0))

/-- `np.vstack`: raises `ValueError` on an empty list of rows. -/
def vstack (rows : List (List ℚ)) : Except PyErr (List (List ℚ)) :=
  if rows.isEmpty then Except.error PyErr.valueError else Except.ok rows

/-- Elementwise difference `x - xc` of two anchor-point rows. -/
def rowSub (x xc : List ℚ) : List ℚ := (x.zip xc).map (fun p => p.1 - p.2)

/-- Dot product of two equally long lists (`kernels.dot(A)` rowwise). -/
def dotQ (u w : List ℚ) : ℚ := ((u.zip w).map (fun p => p.1 * p.2)).sum

/-- `np.ndarray.min` of a nonempty flattened array (junk `0` on empty,
which the code never reaches). -/
def npMin : List ℚ → ℚ
  | [] => 0
  | q :: qs => qs.foldl min q

/-- What the returned `potential` and `mean_force` closures capture: the
closure environment, the fitted weights `A`, the zero-floor `minimum` and
the anchor list `centers`. -/
structure FitResult where
  env : ClosureEnv
  A : List ℚ
  minimum : ℚ
  centers : List (List ℚ)
deriving DecidableEq, Repr

/-- `Analyzer.free_energy_functions(sigma)`: compute the variances, build
the kernel closures, assemble the stacked gradient matrix `M` (one row
per direction and anchor) and the stacked negated mean forces `F`, solve
by least squares, evaluate the kernel matrix at the anchors and shift by
its minimum.  Errors propagate exactly where the Python code raises. -/
def freeEnergyFunctions (o : FitOracles) (vars : List CollectiveVariable)
    (bins : List ℕ) (res : AnalyzerResult) (sigma : SigmaArg) :
    Except PyErr FitResult := do
  let variances ← variancesOf vars bins sigma
  let env := mkClosureEnv o vars variances
  let n := vars.length
  let centers := pyZip res.centers
  let coefficients ← (List.range n).mapM (fun i =>
    centers.mapM (fun x =>
      centers.mapM (fun xc => gradientQ o env n (rowSub x xc) i)))
  let M ← vstack coefficients.flatten
  let F := res.mean_forces.flatten.map Neg.neg
  let A := o.lstsq M F
  let kernelsRows ← centers.mapM (fun x =>
    centers.mapM (fun xc => kernelQ o env n (rowSub x xc)))
  let potentials := kernelsRows.map (fun row => dotQ row A)
  let minimum := npMin potentials
  Except.ok { env := env, A := A, minimum := minimum, centers := centers }

/-! ## Real-valued kernel evaluators (`free_energy_functions` closures)

For the calculus identity between `potential` and `mean_force` the kernel
family is embedded over `ℝ` with the genuine `Real.exp`, `Real.cos`,
`Real.sin`.  Each dimension's closure is described by the branch it took
(`periodic`) and the `factor` and `variance` values it reads when called
(for the source these are the loop-final ones, see `ClosureEnv`; the
definitions below take them as arbitrary per-dimension parameters, which
subsumes the code's instantiation). -/

/-- The data a per-dimension kernel closure reads when evaluated. -/
structure DimKernel where
  periodic : Bool
  factor : ℝ
  variance : ℝ

/-- `exponent[i](x)`: `(np.cos(factor*x)-1.0)/variance` on the periodic
branch, `-0.5*x**2/variance` otherwise. -/
noncomputable def dimExponent (d : DimKernel) (x : ℝ) : ℝ :=
  if d.periodic then (Real.cos (d.factor * x) - 1) / d.variance
  else -(1/2) * x ^ 2 / d.variance

/-- `derivative[i](x)`: `-np.sin(factor*x)*factor/variance` on the
periodic branch, `-x/variance` otherwise. -/
noncomputable def dimDerivative (d : DimKernel) (x : ℝ) : ℝ :=
  if d.periodic then -Real.sin (d.factor * x) * d.factor / d.variance
  else -x / d.variance

/-- `kernel(x) = np.exp(np.sum(exponent[i](x[i]) for i in range(n)))`. -/
noncomputable def kernelR {n : ℕ} (ds : Fin n → DimKernel) (y : Fin n → ℝ) : ℝ :=
  Real.exp (∑ i, dimExponent (ds i) (y i))

/-- `gradient(x, i) = kernel(x)*derivative[i](x[i])`. -/
noncomputable def gradientR {n : ℕ} (ds : Fin n → DimKernel) (y : Fin n → ℝ)
    (i : Fin n) : ℝ :=
  kernelR ds y * dimDerivative (ds i) (y i)

/-- The returned `potential` closure:
`np.sum(A*kernels) - minimum` with `kernels = [kernel(x-xc) for xc in centers]`. -/
noncomputable def potentialR {n m : ℕ} (ds : Fin n → DimKernel) (A : Fin m → ℝ)
    (centers : Fin m → Fin n → ℝ) (minimum : ℝ) (x : Fin n → ℝ) : ℝ :=
  (∑ j, A j * kernelR ds (fun i => x i - centers j i)) - minimum

/-- The returned `mean_force` closure:
`-np.sum(A*gradients)` with `gradients = [gradient(x-xc, dir) for xc in centers]`. -/
noncomputable def meanForceR {n m : ℕ} (ds : Fin n → DimKernel) (A : Fin m → ℝ)
    (centers : Fin m → Fin n → ℝ) (x : Fin n → ℝ) (dir : Fin n) : ℝ :=
  -∑ j, A j * gradientR ds (fun i => x i - centers j i) dir

/-! ## The integrator step language (`integrators.py`)

OpenMM's `CustomIntegrator` computation list is modelled per degree of
freedom: a state carries the per-dof variables `x`, `v`, `f`, `m`, `x0`,
`kT` and the per-dof gaussian draw of the current step, together with the
global variables `dt`, `friction` and `irattle`.  Expressions are an AST
mirroring the expression strings of the source; `exp` and `sqrt` are
oracle functions, and constraint projection / context-state update are
opaque state transformers supplied to the interpreter. -/

/-- The per-dof and global variables visible to one degree of freedom. -/
structure MDState where
  x : ℚ
  v : ℚ
  f : ℚ
  m : ℚ
  dt : ℚ
  x0 : ℚ
  kT : ℚ
  friction : ℚ
  irattle : ℚ
  gaussianDraw : ℚ
deriving DecidableEq, Repr

/-- Expression AST for the integrator's expression strings.  `letz val
body` models the `expr; z = val` form (a single local definition named
`z`, referenced by `zvar`). -/
inductive PExpr where
  | x | v | f | m | dt | x0 | kT | friction | irattle | gaussian | zvar
  | lit (q : ℚ)
  | add (a b : PExpr)
  | sub (a b : PExpr)
  | mul (a b : PExpr)
  | div (a b : PExpr)
  | neg (a : PExpr)
  | exp (a : PExpr)
  | sqrt (a : PExpr)
  | letz (val body : PExpr)
deriving Repr

/-- Comparison conditions (`beginWhileBlock('irattle < r')`). -/
inductive PCond where
  | lt (a b : PExpr)
deriving Repr

/-- Targets of `addComputePerDof` used by the source. -/
inductive DofTarget where
  | x | v | x0
deriving DecidableEq, Repr

/-- Targets of `addComputeGlobal` used by the source. -/
inductive GlobalTarget where
  | irattle
deriving DecidableEq, Repr

/-- One computation step of a `CustomIntegrator` program. -/
inductive Step where
  | computePerDof (t : DofTarget) (e : PExpr)
  | computeGlobal (t : GlobalTarget) (e : PExpr)
  | constrainPositions
  | constrainVelocities
  | updateContextState
  | whileLoop (c : PCond) (body : List Step)
deriving Repr

/-- The opaque collaborators of one integrator step: the `exp` and `sqrt`
functions of the expression language, constraint projections and the
context-state update (force refresh). -/
structure IntSem where
  fexp : ℚ → ℚ
  fsqrt : ℚ → ℚ
  cPos : MDState → MDState
  cVel : MDState → MDState
  ucs : MDState → MDState

/-- Evaluate an expression in a state, with `z` the value of the local
`z` binding (0 outside any `letz`). -/
def evalE (S : IntSem) (env : MDState) (z : ℚ) : PExpr → ℚ
  | PExpr.x => env.x
  | PExpr.v => env.v
  | PExpr.f => env.f
  | PExpr.m => env.m
  | PExpr.dt => env.dt
  | PExpr.x0 => env.x0
  | PExpr.kT => env.kT
  | PExpr.friction => env.friction
  | PExpr.irattle => env.irattle
  | PExpr.gaussian => env.gaussianDraw
  | PExpr.zvar => z
  | PExpr.lit q => q
  | PExpr.add a b => evalE S env z a + evalE S env z b
  | PExpr.sub a b => evalE S env z a - evalE S env z b
  | PExpr.mul a b => evalE S env z a * evalE S env z b
  | PExpr.div a b => evalE S env z a / evalE S env z b
  | PExpr.neg a => -evalE S env z a
  | PExpr.exp a => S.fexp (evalE S env z a)
  | PExpr.sqrt a => S.fsqrt (evalE S env z a)
  | PExpr.letz val body => evalE S env (evalE S env z val) body

/-- Evaluate a condition. -/
def evalC (S : IntSem) (env : MDState) : PCond → Bool
  | PCond.lt a b => evalE S env 0 a < evalE S env 0 b

/-- Write a per-dof target. -/
def setDof (env : MDState) : DofTarget → ℚ → MDState
  | DofTarget.x, q => { env with x := q }
  | DofTarget.v, q => { env with v := q }
  | DofTarget.x0, q => { env with x0 := q }

/-- Write a global target. -/
def setGlobal (env : MDState) : GlobalTarget → ℚ → MDState
  | GlobalTarget.irattle, q => { env with irattle := q }

mutual

/-- Run one step; the result pairs the final state with the number of
while-loop body executions performed.  `fuel` bounds the number of loop
iterations (`none` = the bound was hit, i.e. non-termination up to
`fuel`). -/
def runStep (S : IntSem) : ℕ → Step → MDState → Option (MDState × ℕ)
  | _, Step.computePerDof t e, env => some (setDof env t (evalE S env 0 e), 0)
  | _, Step.computeGlobal t e, env => some (setGlobal env t (evalE S env 0 e), 0)
  | _, Step.constrainPositions, env => some (S.cPos env, 0)
  | _, Step.constrainVelocities, env => some (S.cVel env, 0)
  | _, Step.updateContextState, env => some (S.ucs env, 0)
  | fuel, Step.whileLoop c body, env =>
      if evalC S env c then
        match fuel with
        | 0 => none
        | fuel' + 1 => do
            let r1 ← runList S fuel' body env
            let r2 ← runStep S fuel' (Step.whileLoop c body) r1.1
            some (r2.1, 1 + r1.2 + r2.2)
      else some (env, 0)
termination_by fuel s _ => (fuel, sizeOf s)

/-- Run a list of steps in order, accumulating loop-body counts. -/
def runList (S : IntSem) : ℕ → List Step → MDState → Option (MDState × ℕ)
  | _, [], env => some (env, 0)
  | fuel, s :: rest, env => do
      let r1 ← runStep S fuel s env
      let r2 ← runList S fuel rest r1.1
      some (r2.1, r1.2 + r2.2)
termination_by fuel l _ => (fuel, sizeOf l)

end

/-! ## Building the geodesic BAOAB program (`integrators.py`) -/

/-- The program-building state of a `CustomIntegrator`: the completed
top-level steps plus a stack of open while blocks
(`beginWhileBlock` pushes, `endBlock` pops). -/
structure Builder where
  steps : List Step
  openBlocks : List (PCond × List Step)

/-- Append one step: to the innermost open block if one exists, else to
the top level. -/
def Builder.addStep (b : Builder) (s : Step) : Builder :=
  match b.openBlocks with
  | [] => { b with steps := b.steps ++ [s] }
  | (c, body) :: rest => { b with openBlocks := (c, body ++ [s]) :: rest }

/-- `self.addComputePerDof(target, expr)`. -/
def Builder.addComputePerDof (b : Builder) (t : DofTarget) (e : PExpr) : Builder :=
  b.addStep (Step.computePerDof t e)

/-- `self.addComputeGlobal(target, expr)`. -/
def Builder.addComputeGlobal (b : Builder) (t : GlobalTarget) (e : PExpr) : Builder :=
  b.addStep (Step.computeGlobal t e)

/-- `self.addConstrainPositions()`. -/
def Builder.addConstrainPositions (b : Builder) : Builder :=
  b.addStep Step.constrainPositions

/-- `self.addConstrainVelocities()`. -/
def Builder.addConstrainVelocities (b : Builder) : Builder :=
  b.addStep Step.constrainVelocities

/-- `self.addUpdateContextState()`. -/
def Builder.addUpdateContextState (b : Builder) : Builder :=
  b.addStep Step.updateContextState

/-- `self.beginWhileBlock(cond)`. -/
def Builder.beginWhileBlock (b : Builder) (c : PCond) : Builder :=
  { b with openBlocks := (c, []) :: b.openBlocks }

/-- `self.endBlock()`: close the innermost block into a `whileLoop` step. -/
def Builder.endBlock (b : Builder) : Builder :=
  match b.openBlocks with
  | [] => b
  | (c, body) :: rest => Builder.addStep { b with openBlocks := rest } (Step.whileLoop c body)

/-- The drift expression `'x + {0.5/max(1, rattles)}*dt*v'` (the Python
f-string interpolates the numeric value of `0.5/max(1, rattles)`). -/
def driftExpr (r : ℕ) : PExpr :=
  PExpr.add PExpr.x
    (PExpr.mul (PExpr.mul (PExpr.lit (1 / (2 * ((max 1 r : ℕ) : ℚ)))) PExpr.dt) PExpr.v)

/-- The RATTLE velocity correction `'v + (x - x0)/({0.5/rattles}*dt)'`. -/
def vCorrExpr (r : ℕ) : PExpr :=
  PExpr.add PExpr.v
    (PExpr.div (PExpr.sub PExpr.x PExpr.x0) (PExpr.mul (PExpr.lit (1 / (2 * (r : ℚ)))) PExpr.dt))

/-- The kick expression `'v + 0.5*dt*f/m'`. -/
def kickExpr : PExpr :=
  PExpr.add PExpr.v
    (PExpr.div (PExpr.mul (PExpr.mul (PExpr.lit (1/2)) PExpr.dt) PExpr.f) PExpr.m)

/-- The Ornstein-Uhlenbeck expression
`'z*v + sqrt((1 - z*z)*kT/m)*gaussian; z = exp(-friction*dt)'`. -/
def ouExpr : PExpr :=
  PExpr.letz (PExpr.exp (PExpr.neg (PExpr.mul PExpr.friction PExpr.dt)))
    (PExpr.add (PExpr.mul PExpr.zvar PExpr.v)
      (PExpr.mul
        (PExpr.sqrt
          (PExpr.div
            (PExpr.mul (PExpr.sub (PExpr.lit 1) (PExpr.mul PExpr.zvar PExpr.zvar)) PExpr.kT)
            PExpr.m))
        PExpr.gaussian))

/-- `GeodesicBAOABIntegrator._A(self)`. -/
def geoA (r : ℕ) (b : Builder) : Builder :=
  let b := if 1 < r then
      (b.addComputeGlobal GlobalTarget.irattle (PExpr.lit 0)).beginWhileBlock
        (PCond.lt PExpr.irattle (PExpr.lit (r : ℚ)))
    else b
  let b := b.addComputePerDof DofTarget.x (driftExpr r)
  let b := if 0 < r then
      ((((b.addComputePerDof DofTarget.x0 PExpr.x).addConstrainPositions).addComputePerDof
          DofTarget.v (vCorrExpr r)).addConstrainVelocities)
    else b
  if 1 < r then
    (b.addComputeGlobal GlobalTarget.irattle
      (PExpr.add PExpr.irattle (PExpr.lit 1))).endBlock
  else b

/-- `GeodesicBAOABIntegrator._B(self)`. -/
def geoB (r : ℕ) (b : Builder) : Builder :=
  let b := b.addComputePerDof DofTarget.v kickExpr
  if 0 < r then b.addConstrainVelocities else b

/-- `GeodesicBAOABIntegrator._O(self)`. -/
def geoO (r : ℕ) (b : Builder) : Builder :=
  let b := b.addComputePerDof DofTarget.v ouExpr
  if 0 < r then b.addConstrainVelocities else b

/-- `unit.MOLAR_GAS_CONSTANT_R` in OpenMM's MD unit system
(kJ/(mol K)). -/
def MOLAR_GAS_CONSTANT_R : ℚ := 831446261815324 / 10 ^ 17

/-- What `GeodesicBAOABIntegrator.__init__` produces: the initial values
of the variables it declares and the computation-step program. -/
structure GeodesicIntegrator where
  kTinit : ℚ
  frictionInit : ℚ
  x0init : ℚ
  stepSize : ℚ
  rattles : ℕ
  steps : List Step

/-- `GeodesicBAOABIntegrator.__init__(temperature, friction_coefficient,
step_size, rattles)`: the parent constructor sets the per-dof variable
`kT` to `MOLAR_GAS_CONSTANT_R*temperature`; then the global `friction`
(and `irattle` when `rattles > 1`) and the per-dof `x0` are declared, and
the program is built as `addUpdateContextState; _B; _A; _O; _A; _B`. -/
def geodesicIntegrator (temperature frictionC stepSize : ℚ) (r : ℕ) :
    GeodesicIntegrator :=
  let b : Builder := ⟨[], []⟩
  let b := b.addUpdateContextState
  let b := geoB r b
  let b := geoA r b
  let b := geoO r b
  let b := geoA r b
  let b := geoB r b
  { kTinit := MOLAR_GAS_CONSTANT_R * temperature
  , frictionInit := frictionC
  , x0init := 0
  , stepSize := stepSize
  , rattles := r
  , steps := b.steps }

/-! Stand-alone step lists for the three sub-programs, used to state the
claims; they are proved equal to what the builder emits. -/

/-- The constrained drift block shared by every `_A` variant. -/
def aCore (r : ℕ) : List Step :=
  Step.computePerDof DofTarget.x (driftExpr r) ::
    (if 0 < r then
      [Step.computePerDof DofTarget.x0 PExpr.x,
       Step.constrainPositions,
       Step.computePerDof DofTarget.v (vCorrExpr r),
       Step.constrainVelocities]
    else [])

/-- The body of the `_A` while loop (`rattles > 1`). -/
def aBody (r : ℕ) : List Step :=
  aCore r ++ [Step.computeGlobal GlobalTarget.irattle (PExpr.add PExpr.irattle (PExpr.lit 1))]

/-- The steps emitted by `_A`. -/
def aList (r : ℕ) : List Step :=
  if 1 < r then
    [Step.computeGlobal GlobalTarget.irattle (PExpr.lit 0),
     Step.whileLoop (PCond.lt PExpr.irattle (PExpr.lit (r : ℚ))) (aBody r)]
  else aCore r

/-- The steps emitted by `_B`. -/
def bList (r : ℕ) : List Step :=
  Step.computePerDof DofTarget.v kickExpr ::
    (if 0 < r then [Step.constrainVelocities] else [])

/-- The steps emitted by `_O`. -/
def oList (r : ℕ) : List Step :=
  Step.computePerDof DofTarget.v ouExpr ::
    (if 0 < r then [Step.constrainVelocities] else [])

mutual

/-- Does a step perform (or contain, inside a loop body) a constraint
projection? -/
def stepHasConstrain : Step → Bool
  | Step.constrainPositions => true
  | Step.constrainVelocities => true
  | Step.whileLoop _ body => stepsHaveConstrain body
  | _ => false

/-- Does any step of a program perform a constraint projection? -/
def stepsHaveConstrain : List Step → Bool
  | [] => false
  | s :: rest => stepHasConstrain s || stepsHaveConstrain rest

end

/-! ## Concrete instances used by witnesses and counterexamples -/

/-- Identity collaborators: `exp` and `sqrt` as the identity function,
constraint projections and context update as the identity. -/
def wS0 : IntSem := ⟨id, id, id, id, id⟩

/-- A concrete state. -/
def wEnv : MDState := ⟨1, 2, 3, 4, 5, 6, 7, 8, 9, 10⟩

/-- A concrete periodic CV: range 2 over `[0, 2]`, force constant 3. -/
def wCV : CollectiveVariable := ⟨true, 0, 2, 3, 2⟩

/-- Concrete oracles: identity `exp`/`cos`/`sin`, `pi = 0`, a least-squares
solver returning the empty vector (its value is irrelevant to the claims
it is used for). -/
def wOracles : FitOracles := ⟨id, id, id, 0, fun _ _ => []⟩

/-- A non-periodic CV over `[0, 1]` (`_range = 1`). -/
def wCV1 : CollectiveVariable := ⟨false, 0, 1, 10, 1⟩

/-- A non-periodic CV over `[0, 2]` (`_range = 2`). -/
def wCV2 : CollectiveVariable := ⟨false, 0, 2, 10, 2⟩

/-- An analyzer state with one anchor for a single CV. -/
def wRes : AnalyzerResult := ⟨[1], [[0]], [[1]]⟩

/-! ## Interpreter unfolding lemmas -/

theorem runList_nil (S : IntSem) (fuel : ℕ) (env : MDState) :
    runList S fuel [] env = some (env, 0) := by
  rw [runList.eq_def]

theorem runList_cons (S : IntSem) (fuel : ℕ) (s : Step) (rest : List Step) (env : MDState) :
    runList S fuel (s :: rest) env =
      (runStep S fuel s env).bind (fun r1 =>
        (runList S fuel rest r1.1).bind (fun r2 => some (r2.1, r1.2 + r2.2))) := by
  rw [runList.eq_def]
  rfl

theorem runStep_perDof (S : IntSem) (fuel : ℕ) (t : DofTarget) (e : PExpr) (env : MDState) :
    runStep S fuel (Step.computePerDof t e) env = some (setDof env t (evalE S env 0 e), 0) := by
  rw [runStep.eq_def]

theorem runStep_global (S : IntSem) (fuel : ℕ) (t : GlobalTarget) (e : PExpr) (env : MDState) :
    runStep S fuel (Step.computeGlobal t e) env =
      some (setGlobal env t (evalE S env 0 e), 0) := by
  rw [runStep.eq_def]

theorem runStep_cPos (S : IntSem) (fuel : ℕ) (env : MDState) :
    runStep S fuel Step.constrainPositions env = some (S.cPos env, 0) := by
  rw [runStep.eq_def]

theorem runStep_cVel (S : IntSem) (fuel : ℕ) (env : MDState) :
    runStep S fuel Step.constrainVelocities env = some (S.cVel env, 0) := by
  rw [runStep.eq_def]

theorem runStep_ucs (S : IntSem) (fuel : ℕ) (env : MDState) :
    runStep S fuel Step.updateContextState env = some (S.ucs env, 0) := by
  rw [runStep.eq_def]

theorem runStep_while_false (S : IntSem) (fuel : ℕ) (c : PCond) (body : List Step)
    (env : MDState) (h : evalC S env c = false) :
    runStep S fuel (Step.whileLoop c body) env = some (env, 0) := by
  rw [runStep.eq_def]
  simp [h]

theorem runStep_while_true (S : IntSem) (fuel : ℕ) (c : PCond) (body : List Step)
    (env : MDState) (h : evalC S env c = true) :
    runStep S (fuel + 1) (Step.whileLoop c body) env =
      (runList S fuel body env).bind (fun r1 =>
        (runStep S fuel (Step.whileLoop c body) r1.1).bind (fun r2 =>
          some (r2.1, 1 + r1.2 + r2.2))) := by
  rw [runStep.eq_def]
  simp [h]

theorem runList_append (S : IntSem) (fuel : ℕ) (xs ys : List Step) (env : MDState) :
    runList S fuel (xs ++ ys) env =
      (runList S fuel xs env).bind (fun r1 =>
        (runList S fuel ys r1.1).bind (fun r2 => some (r2.1, r1.2 + r2.2))) := by
  induction xs generalizing env with
  | nil =>
      rw [List.nil_append, runList_nil]
      cases h : runList S fuel ys env with
      | none => simp [h]
      | some p => simp [h]
  | cons s rest ih =>
      rw [List.cons_append, runList_cons, runList_cons]
      cases h1 : runStep S fuel s env with
      | none => rfl
      | some r1 =>
          simp only [Option.some_bind]
          rw [ih]
          cases h2 : runList S fuel rest r1.1 with
          | none => rfl
          | some r2 =>
              simp only [Option.some_bind]
              cases h3 : runList S fuel ys r2.1 with
              | none => rfl
              | some r3 => simp [Nat.add_assoc]

/-! ## Builder decomposition: the program is `update; B; A; O; A; B` -/

theorem geoB_steps (r : ℕ) (b : Builder) (h : b.openBlocks = []) :
    (geoB r b).steps = b.steps ++ bList r ∧ (geoB r b).openBlocks = [] := by
  obtain ⟨steps, blocks⟩ := b
  simp only at h
  subst h
  by_cases hr : 0 < r <;>
    simp [geoB, bList, Builder.addComputePerDof, Builder.addConstrainVelocities,
      Builder.addStep, hr]

theorem geoO_steps (r : ℕ) (b : Builder) (h : b.openBlocks = []) :
    (geoO r b).steps = b.steps ++ oList r ∧ (geoO r b).openBlocks = [] := by
  obtain ⟨steps, blocks⟩ := b
  simp only at h
  subst h
  by_cases hr : 0 < r <;>
    simp [geoO, oList, Builder.addComputePerDof, Builder.addConstrainVelocities,
      Builder.addStep, hr]

theorem geoA_steps (r : ℕ) (b : Builder) (h : b.openBlocks = []) :
    (geoA r b).steps = b.steps ++ aList r ∧ (geoA r b).openBlocks = [] := by
  obtain ⟨steps, blocks⟩ := b
  simp only at h
  subst h
  by_cases h1 : 1 < r
  · have h0 : 0 < r := by omega
    simp [geoA, aList, aBody, aCore, Builder.addComputePerDof, Builder.addComputeGlobal,
      Builder.addConstrainPositions, Builder.addConstrainVelocities, Builder.beginWhileBlock,
      Builder.endBlock, Builder.addStep, h1, h0]
  · by_cases h0 : 0 < r <;>
      simp [geoA, aList, aCore, Builder.addComputePerDof, Builder.addComputeGlobal,
        Builder.addConstrainPositions, Builder.addConstrainVelocities, Builder.beginWhileBlock,
        Builder.endBlock, Builder.addStep, h1, h0]

theorem geodesic_steps_decompose (T g dt : ℚ) (r : ℕ) :
    (geodesicIntegrator T g dt r).steps =
      Step.updateContextState :: (bList r ++ aList r ++ oList r ++ aList r ++ bList r) := by
  have hb0 : (Builder.addUpdateContextState ⟨[], []⟩).openBlocks = [] := rfl
  obtain ⟨hs1, hb1⟩ := geoB_steps r _ hb0
  obtain ⟨hs2, hb2⟩ := geoA_steps r _ hb1
  obtain ⟨hs3, hb3⟩ := geoO_steps r _ hb2
  obtain ⟨hs4, hb4⟩ := geoA_steps r _ hb3
  obtain ⟨hs5, hb5⟩ := geoB_steps r _ hb4
  show (geoB r (geoA r (geoO r (geoA r (geoB r
    (Builder.addUpdateContextState ⟨[], []⟩)))))).steps = _
  rw [hs5, hs4, hs3, hs2, hs1]
  simp [Builder.addUpdateContextState, Builder.addStep]

/-! ## Running the A step with constraints acting as the identity -/

theorem runABody_id (S : IntSem) (hcp : S.cPos = id) (hcv : S.cVel = id)
    (r : ℕ) (hr : 1 < r) (fuel : ℕ) (env : MDState) :
    runList S fuel (aBody r) env =
      some ({ env with
                x := env.x + 1 / (2 * (r : ℚ)) * env.dt * env.v
                x0 := env.x + 1 / (2 * (r : ℚ)) * env.dt * env.v
                irattle := env.irattle + 1 }, 0) := by
  have h0 : 0 < r := by omega
  have hmax : (max 1 r : ℕ) = r := by omega
  simp [aBody, aCore, h0, runList_cons, runList_nil, runStep_perDof, runStep_cPos,
    runStep_cVel, runStep_global, hcp, hcv, evalE, setDof, setGlobal, driftExpr,
    vCorrExpr, hmax]

theorem runAWhile_id (S : IntSem) (hcp : S.cPos = id) (hcv : S.cVel = id)
    (r : ℕ) (hr : 1 < r) :
    ∀ (j : ℕ) (env : MDState), j ≤ r → env.irattle = (r : ℚ) - j →
    ∃ env2,
      runStep S j (Step.whileLoop (PCond.lt PExpr.irattle (PExpr.lit (r : ℚ))) (aBody r)) env
        = some (env2, j)
      ∧ env2.x = env.x + (j : ℚ) * (1 / (2 * (r : ℚ))) * env.dt * env.v
      ∧ env2.v = env.v ∧ env2.dt = env.dt := by
  intro j
  induction j with
  | zero =>
      intro env _ hI
      refine ⟨env, ?_, by push_cast; ring, rfl, rfl⟩
      refine runStep_while_false S 0 _ _ env ?_
      simp [evalC, evalE, hI]
  | succ j ih =>
      intro env hj hI
      have hcond : evalC S env (PCond.lt PExpr.irattle (PExpr.lit (r : ℚ))) = true := by
        simp only [evalC, evalE, hI, decide_eq_true_eq]
        have : (0 : ℚ) < ((j : ℚ) + 1) := by positivity
        push_cast
        linarith
      set env1 : MDState :=
        { env with
            x := env.x + 1 / (2 * (r : ℚ)) * env.dt * env.v
            x0 := env.x + 1 / (2 * (r : ℚ)) * env.dt * env.v
            irattle := env.irattle + 1 } with henv1
      have hI1 : env1.irattle = (r : ℚ) - j := by
        simp [henv1, hI]
        ring
      obtain ⟨env2, hrun, hx, hv, hdt⟩ := ih env1 (by omega) hI1
      refine ⟨env2, ?_, ?_, ?_, ?_⟩
      · rw [runStep_while_true S j _ _ env hcond,
          runABody_id S hcp hcv r hr j env]
        simp only [Option.some_bind, hrun, Option.some_bind]
        simp [Nat.add_comm]
      · rw [hx]
        simp only [henv1]
        push_cast
        ring
      · rw [hv]
      · rw [hdt]

theorem runAList_one (S : IntSem) (hcp : S.cPos = id) (hcv : S.cVel = id)
    (fuel : ℕ) (env : MDState) :
    runList S fuel (aList 1) env =
      some ({ env with
                x := env.x + 1 / 2 * env.dt * env.v
                x0 := env.x + 1 / 2 * env.dt * env.v }, 0) := by
  simp [aList, aCore, runList_cons, runList_nil, runStep_perDof, runStep_cPos,
    runStep_cVel, hcp, hcv, evalE, setDof, driftExpr, vCorrExpr]

theorem runAList_many (S : IntSem) (hcp : S.cPos = id) (hcv : S.cVel = id)
    (r : ℕ) (hr : 1 < r) (env : MDState) :
    (runList S r (aList r) env).map (fun p => (p.1.x, p.1.v, p.2))
      = some (env.x + 1 / 2 * env.dt * env.v, env.v, r) := by
  have hrQ : ((r : ℚ)) ≠ 0 := by
    have : 0 < r := by omega
    positivity
  rw [aList, if_pos hr, runList_cons, runStep_global]
  set env1 := setGlobal env GlobalTarget.irattle (evalE S env 0 (PExpr.lit 0)) with he1
  have hI1 : env1.irattle = (r : ℚ) - (r : ℚ) := by
    simp [he1, setGlobal, evalE]
  obtain ⟨env2, hrun, hx, hv, hdt⟩ :=
    runAWhile_id S hcp hcv r hr r env1 (le_refl r) (by rw [hI1])
  have hxv : env1.x = env.x ∧ env1.v = env.v ∧ env1.dt = env.dt := by
    simp [he1, setGlobal]
  obtain ⟨hex, hev, hedt⟩ := hxv
  rw [Option.some_bind, runList_cons, hrun, Option.some_bind, runList_nil]
  simp only [Option.some_bind, Option.map_some']
  rw [hx, hv, hex, hev, hedt]
  have harith : (r : ℚ) * (1 / (2 * (r : ℚ))) * env.dt * env.v = 1 / 2 * env.dt * env.v := by
    field_simp
    ring
  rw [harith]
  norm_num

/-! ## Running the full program with arbitrary irattle-preserving
constraint projections -/

theorem runList_cons_some {S : IntSem} {fuel : ℕ} {s : Step} {rest : List Step}
    {env e1 e2 : MDState} {c1 c2 : ℕ}
    (h1 : runStep S fuel s env = some (e1, c1))
    (h2 : runList S fuel rest e1 = some (e2, c2)) :
    runList S fuel (s :: rest) env = some (e2, c1 + c2) := by
  rw [runList_cons, h1, Option.some_bind, h2, Option.some_bind]

theorem runABody_pres (S : IntSem)
    (hcp : ∀ e, (S.cPos e).irattle = e.irattle)
    (hcv : ∀ e, (S.cVel e).irattle = e.irattle)
    (r : ℕ) (hr : 0 < r) (fuel : ℕ) (env : MDState) :
    ∃ e1, runList S fuel (aBody r) env = some (e1, 0)
      ∧ e1.irattle = env.irattle + 1 := by
  have hbody : aBody r = [Step.computePerDof DofTarget.x (driftExpr r),
      Step.computePerDof DofTarget.x0 PExpr.x, Step.constrainPositions,
      Step.computePerDof DofTarget.v (vCorrExpr r), Step.constrainVelocities,
      Step.computeGlobal GlobalTarget.irattle (PExpr.add PExpr.irattle (PExpr.lit 1))] := by
    simp [aBody, aCore, hr]
  rw [hbody]
  refine ⟨_, runList_cons_some (runStep_perDof S fuel _ _ _)
    (runList_cons_some (runStep_perDof S fuel _ _ _)
      (runList_cons_some (runStep_cPos S fuel _)
        (runList_cons_some (runStep_perDof S fuel _ _ _)
          (runList_cons_some (runStep_cVel S fuel _)
            (runList_cons_some (runStep_global S fuel _ _ _)
              (runList_nil S fuel _)))))), ?_⟩
  simp [setGlobal, setDof, evalE, hcp, hcv]

theorem runBList_any (S : IntSem) (r fuel : ℕ) (env : MDState) :
    ∃ e1, runList S fuel (bList r) env = some (e1, 0) := by
  by_cases hr : 0 < r
  · have hb : bList r = [Step.computePerDof DofTarget.v kickExpr,
        Step.constrainVelocities] := by simp [bList, hr]
    rw [hb]
    exact ⟨_, runList_cons_some (runStep_perDof S fuel _ _ _)
      (runList_cons_some (runStep_cVel S fuel _) (runList_nil S fuel _))⟩
  · have hb : bList r = [Step.computePerDof DofTarget.v kickExpr] := by simp [bList, hr]
    rw [hb]
    exact ⟨_, runList_cons_some (runStep_perDof S fuel _ _ _) (runList_nil S fuel _)⟩

theorem runOList_any (S : IntSem) (r fuel : ℕ) (env : MDState) :
    ∃ e1, runList S fuel (oList r) env = some (e1, 0) := by
  by_cases hr : 0 < r
  · have hb : oList r = [Step.computePerDof DofTarget.v ouExpr,
        Step.constrainVelocities] := by simp [oList, hr]
    rw [hb]
    exact ⟨_, runList_cons_some (runStep_perDof S fuel _ _ _)
      (runList_cons_some (runStep_cVel S fuel _) (runList_nil S fuel _))⟩
  · have hb : oList r = [Step.computePerDof DofTarget.v ouExpr] := by simp [oList, hr]
    rw [hb]
    exact ⟨_, runList_cons_some (runStep_perDof S fuel _ _ _) (runList_nil S fuel _)⟩

theorem runAWhile_pres (S : IntSem)
    (hcp : ∀ e, (S.cPos e).irattle = e.irattle)
    (hcv : ∀ e, (S.cVel e).irattle = e.irattle)
    (r : ℕ) (hr : 1 < r) :
    ∀ (j : ℕ) (env : MDState), j ≤ r → env.irattle = (r : ℚ) - j →
    ∃ env2,
      runStep S j (Step.whileLoop (PCond.lt PExpr.irattle (PExpr.lit (r : ℚ))) (aBody r)) env
        = some (env2, j) := by
  intro j
  induction j with
  | zero =>
      intro env _ hI
      refine ⟨env, runStep_while_false S 0 _ _ env ?_⟩
      simp [evalC, evalE, hI]
  | succ j ih =>
      intro env hj hI
      have hcond : evalC S env (PCond.lt PExpr.irattle (PExpr.lit (r : ℚ))) = true := by
        simp only [evalC, evalE, hI, decide_eq_true_eq]
        have : (0 : ℚ) < ((j : ℚ) + 1) := by positivity
        push_cast
        linarith
      obtain ⟨e1, he1, hi1⟩ := runABody_pres S hcp hcv r (by omega) j env
      have hI1 : e1.irattle = (r : ℚ) - j := by
        rw [hi1, hI]
        push_cast
        ring
      obtain ⟨env2, hrun⟩ := ih e1 (by omega) hI1
      refine ⟨env2, ?_⟩
      rw [runStep_while_true S j _ _ env hcond, he1, Option.some_bind, hrun,
        Option.some_bind]
      simp [Nat.add_comm]

theorem runAList_pres (S : IntSem)
    (hcp : ∀ e, (S.cPos e).irattle = e.irattle)
    (hcv : ∀ e, (S.cVel e).irattle = e.irattle)
    (r : ℕ) (env : MDState) :
    ∃ e1, runList S r (aList r) env = some (e1, if 1 < r then r else 0) := by
  by_cases h1 : 1 < r
  · rw [aList, if_pos h1, runList_cons, runStep_global, Option.some_bind]
    set env1 := setGlobal env GlobalTarget.irattle (evalE S env 0 (PExpr.lit 0)) with he1
    have hI1 : env1.irattle = (r : ℚ) - (r : ℚ) := by
      simp [he1, setGlobal, evalE]
    obtain ⟨env2, hrun⟩ :=
      runAWhile_pres S hcp hcv r h1 r env1 (le_refl r) (by rw [hI1])
    refine ⟨env2, ?_⟩
    rw [runList_cons, hrun, Option.some_bind, runList_nil]
    simp [h1]
  · rw [aList, if_neg h1, if_neg h1]
    by_cases h0 : 0 < r
    · have hb : aCore r = [Step.computePerDof DofTarget.x (driftExpr r),
          Step.computePerDof DofTarget.x0 PExpr.x, Step.constrainPositions,
          Step.computePerDof DofTarget.v (vCorrExpr r), Step.constrainVelocities] := by
        simp [aCore, h0]
      rw [hb]
      exact ⟨_, runList_cons_some (runStep_perDof S r _ _ _)
        (runList_cons_some (runStep_perDof S r _ _ _)
          (runList_cons_some (runStep_cPos S r _)
            (runList_cons_some (runStep_perDof S r _ _ _)
              (runList_cons_some (runStep_cVel S r _) (runList_nil S r _)))))⟩
    · have hb : aCore r = [Step.computePerDof DofTarget.x (driftExpr r)] := by
        simp [aCore, h0]
      rw [hb]
      exact ⟨_, runList_cons_some (runStep_perDof S r _ _ _) (runList_nil S r _)⟩

/-! ## Claim theorems: integrator -/

/-- C6: for every construction of `GeodesicBAOABIntegrator`, the step
program is the fixed symmetric composition B·A·O·A·B after the
context-state update; B's kick computes `v + 0.5*dt*f/m`, O computes the
Ornstein-Uhlenbeck update `z*v + sqrt((1 - z*z)*kT/m)*gaussian` with
`z = exp(-friction*dt)`, and the per-dof `kT` is initialised to the molar
gas constant times the construction temperature. -/
theorem geodesic_program_is_BAOAB (T g dt : ℚ) (r : ℕ) :
    (geodesicIntegrator T g dt r).steps =
        Step.updateContextState :: (bList r ++ aList r ++ oList r ++ aList r ++ bList r)
      ∧ (geodesicIntegrator T g dt r).kTinit = MOLAR_GAS_CONSTANT_R * T
      ∧ bList r = Step.computePerDof DofTarget.v kickExpr ::
          (if 0 < r then [Step.constrainVelocities] else [])
      ∧ oList r = Step.computePerDof DofTarget.v ouExpr ::
          (if 0 < r then [Step.constrainVelocities] else [])
      ∧ (∀ (S : IntSem) (env : MDState),
          evalE S env 0 kickExpr = env.v + 1 / 2 * env.dt * env.f / env.m)
      ∧ (∀ (S : IntSem) (env : MDState),
          evalE S env 0 ouExpr =
            S.fexp (-(env.friction * env.dt)) * env.v +
              S.fsqrt ((1 - S.fexp (-(env.friction * env.dt)) *
                  S.fexp (-(env.friction * env.dt))) * env.kT / env.m) *
                env.gaussianDraw) :=
  ⟨geodesic_steps_decompose T g dt r, rfl, rfl, rfl, fun _ _ => rfl, fun _ _ => rfl⟩

/-- C5: with `rattles = 0` the generated computation-step program contains
no constrain-positions and no constrain-velocities operation anywhere. -/
theorem rattles_zero_no_constraints (T g dt : ℚ) :
    stepsHaveConstrain (geodesicIntegrator T g dt 0).steps = false := rfl

/-- C4: for `rattles = r > 1` the A-step subdivides the drift into `r`
constrained substeps (the five-step constrained block), and with the
constraint projections acting as the identity the run of the subdivided
A-step terminates with loop count `r`, total displacement
`0.5*dt*v` and unchanged velocity — the same displacement as the single
`rattles = 1` drift. -/
theorem aStep_subdivision_drift (S : IntSem) (r : ℕ) (env : MDState)
    (hcp : S.cPos = id) (hcv : S.cVel = id) (hr : 1 < r) :
    (runList S r (aList r) env).map (fun p => (p.1.x, p.1.v, p.2))
        = some (env.x + 1 / 2 * env.dt * env.v, env.v, r)
      ∧ (runList S r (aList 1) env).map (fun p => (p.1.x, p.1.v, p.2))
        = some (env.x + 1 / 2 * env.dt * env.v, env.v, 0)
      ∧ aCore r = [Step.computePerDof DofTarget.x (driftExpr r),
          Step.computePerDof DofTarget.x0 PExpr.x, Step.constrainPositions,
          Step.computePerDof DofTarget.v (vCorrExpr r), Step.constrainVelocities] := by
  refine ⟨runAList_many S hcp hcv r hr env, ?_, ?_⟩
  · rw [runAList_one S hcp hcv r env]
    rfl
  · simp [aCore, show 0 < r by omega]

/-- C10: one invocation of the step program terminates (the interpreter
returns a result under fuel `r`) and the two A-step while loops execute
their bodies exactly `rattles` times each (total `2*rattles` when
`rattles > 1`, zero otherwise), for any constraint projections that leave
the loop counter `irattle` alone. -/
theorem geodesic_program_bounded (S : IntSem) (T g dt : ℚ) (r : ℕ) (env : MDState)
    (hcp : ∀ e, (S.cPos e).irattle = e.irattle)
    (hcv : ∀ e, (S.cVel e).irattle = e.irattle) :
    (runList S r (geodesicIntegrator T g dt r).steps env).map (fun p => p.2)
      = some (if 1 < r then 2 * r else 0) := by
  rw [geodesic_steps_decompose]
  simp only [List.append_assoc]
  rw [runList_cons, runStep_ucs, Option.some_bind]
  obtain ⟨e1, h1⟩ := runBList_any S r r (S.ucs env)
  rw [runList_append, h1, Option.some_bind]
  obtain ⟨e2, h2⟩ := runAList_pres S hcp hcv r e1
  rw [runList_append, h2, Option.some_bind]
  obtain ⟨e3, h3⟩ := runOList_any S r r e2
  rw [runList_append, h3, Option.some_bind]
  obtain ⟨e4, h4⟩ := runAList_pres S hcp hcv r e3
  rw [runList_append, h4, Option.some_bind]
  obtain ⟨e5, h5⟩ := runBList_any S r r e4
  rw [h5, Option.some_bind]
  simp only [Option.some_bind, Option.map_some', Option.some.injEq]
  by_cases h1r : 1 < r
  all_goals simp [h1r]
  all_goals omega


/-- Witness for C4 at `rattles = 2`. -/
theorem aStep_subdivision_drift_witness :
    wS0.cPos = id ∧ wS0.cVel = id ∧ 1 < 2 ∧
      ((runList wS0 2 (aList 2) wEnv).map (fun p => (p.1.x, p.1.v, p.2))
          = some (wEnv.x + 1 / 2 * wEnv.dt * wEnv.v, wEnv.v, 2)
        ∧ (runList wS0 2 (aList 1) wEnv).map (fun p => (p.1.x, p.1.v, p.2))
          = some (wEnv.x + 1 / 2 * wEnv.dt * wEnv.v, wEnv.v, 0)
        ∧ aCore 2 = [Step.computePerDof DofTarget.x (driftExpr 2),
            Step.computePerDof DofTarget.x0 PExpr.x, Step.constrainPositions,
            Step.computePerDof DofTarget.v (vCorrExpr 2), Step.constrainVelocities]) :=
  ⟨rfl, rfl, by decide, aStep_subdivision_drift wS0 2 wEnv rfl rfl (by decide)⟩

/-- Witness for C10 at `rattles = 3`: the program terminates and the two
loops run three iterations each. -/
theorem geodesic_program_bounded_witness :
    (runList wS0 3 (geodesicIntegrator 300 1 2 3).steps wEnv).map (fun p => p.2)
      = some 6 := by
  simpa using geodesic_program_bounded wS0 300 1 2 3 wEnv (fun _ => rfl) (fun _ => rfl)

/-! ## Claim theorems: periodic wrapping (C7) -/

theorem rint_frac_lt (q : ℚ) (n : ℤ) (hfl : ⌊q⌋ = n) (h : q - n < 1/2) : rint q = n := by
  rw [rint, hfl, if_pos h]

theorem rint_frac_gt (q : ℚ) (n : ℤ) (hfl : ⌊q⌋ = n) (h : 1/2 < q - n) : rint q = n + 1 := by
  rw [rint, hfl, if_neg (by linarith), if_pos h]

/-- C7: for a periodic CV the binning restraint force is computed on the
minimal-image-wrapped displacement `k*(dx - range*rint(dx/range))`;
consequently displacements `range - ε` and `-ε` (for `0 < ε < range/2`)
yield exactly the same force, `-k*ε` — matching sign and identical
magnitude. -/
theorem periodic_wrap_force_symmetric (cv : CollectiveVariable) (e : ℚ)
    (hper : cv.periodic = true) (h0 : 0 < e) (h2 : e < cv._range / 2) :
    restraintForce cv (cv._range - e) = restraintForce cv (-e)
      ∧ restraintForce cv (-e) = -(cv.force_constant * e) := by
  have hR : 0 < cv._range := by linarith
  have ha2 : 1/2 < (cv._range - e) / cv._range := by
    rw [lt_div_iff₀ hR]
    linarith
  have ha1 : (cv._range - e) / cv._range < 1 := by
    rw [div_lt_one hR]
    linarith
  have hfl1 : ⌊(cv._range - e) / cv._range⌋ = 0 := by
    rw [Int.floor_eq_iff]
    constructor
    · push_cast
      linarith
    · push_cast
      linarith
  have hq1 : rint ((cv._range - e) / cv._range) = 1 := by
    have := rint_frac_gt _ 0 hfl1 (by push_cast; linarith)
    simpa using this
  have hb2 : -e / cv._range < 0 := by
    apply div_neg_of_neg_of_pos _ hR
    linarith
  have hb1 : -(1/2 : ℚ) < -e / cv._range := by
    rw [neg_div]
    have : e / cv._range < 1/2 := by
      rw [div_lt_iff₀ hR]
      linarith
    linarith
  have hfl2 : ⌊-e / cv._range⌋ = -1 := by
    rw [Int.floor_eq_iff]
    constructor
    · push_cast
      linarith
    · push_cast
      linarith
  have hq2 : rint (-e / cv._range) = 0 := by
    have := rint_frac_gt _ (-1) hfl2 (by push_cast; linarith)
    simpa using this
  constructor
  · rw [restraintForce, restraintForce, if_pos (by simp [hper]), if_pos (by simp [hper]),
      hq1, hq2]
    push_cast
    ring
  · rw [restraintForce, if_pos (by simp [hper]), hq2]
    push_cast
    ring


/-- Witness for C7 at `ε = 1/4`: both displacements give force `-3/4`. -/
theorem periodic_wrap_force_symmetric_witness :
    wCV.periodic = true ∧ (0 : ℚ) < 1/4 ∧ (1/4 : ℚ) < wCV._range / 2 ∧
      (restraintForce wCV (wCV._range - 1/4) = restraintForce wCV (-(1/4))
        ∧ restraintForce wCV (-(1/4)) = -(wCV.force_constant * (1/4))) :=
  ⟨rfl, by norm_num, by norm_num [wCV],
    periodic_wrap_force_symmetric wCV (1/4) rfl (by norm_num) (by norm_num [wCV])⟩

/-! ## Claim theorems: mean force vs potential derivative (C8) -/

theorem hasDerivAt_dimExponent (d : DimKernel) (c t : ℝ) :
    HasDerivAt (fun s => dimExponent d (s - c)) (dimDerivative d (t - c)) t := by
  by_cases hp : d.periodic
  · simp only [dimExponent, dimDerivative, hp, if_true]
    have h1 : HasDerivAt (fun s : ℝ => d.factor * (s - c)) d.factor t := by
      simpa using ((hasDerivAt_id t).sub_const c).const_mul d.factor
    have h2 : HasDerivAt (fun s : ℝ => Real.cos (d.factor * (s - c)))
        (-Real.sin (d.factor * (t - c)) * d.factor) t := by
      simpa using (Real.hasDerivAt_cos (d.factor * (t - c))).comp t h1
    have h3 := (h2.sub_const 1).div_const d.variance
    simpa using h3
  · simp only [dimExponent, dimDerivative, hp, if_false]
    have h1 : HasDerivAt (fun s : ℝ => (s - c) ^ 2) (2 * (t - c)) t := by
      simpa using ((hasDerivAt_id t).sub_const c).pow 2
    have h2 := (h1.const_mul (-(1/2) : ℝ)).div_const d.variance
    convert h2 using 1
    simp

theorem hasDerivAt_kernel_dir {n : ℕ} (ds : Fin n → DimKernel) (cj : Fin n → ℝ)
    (x : Fin n → ℝ) (dir : Fin n) :
    HasDerivAt (fun t => kernelR ds (fun i => Function.update x dir t i - cj i))
      (gradientR ds (fun i => x i - cj i) dir) (x dir) := by
  have hterm : ∀ i : Fin n,
      HasDerivAt (fun t => dimExponent (ds i) (Function.update x dir t i - cj i))
        (if i = dir then dimDerivative (ds dir) (x dir - cj dir) else 0) (x dir) := by
    intro i
    by_cases hi : i = dir
    · subst hi
      simp only [Function.update_same, if_pos rfl]
      exact hasDerivAt_dimExponent (ds i) (cj i) (x i)
    · simp only [Function.update_noteq hi, if_neg hi]
      exact hasDerivAt_const (x dir) _
  have hsum :
      HasDerivAt (fun t => ∑ i, dimExponent (ds i) (Function.update x dir t i - cj i))
        (dimDerivative (ds dir) (x dir - cj dir)) (x dir) := by
    have := HasDerivAt.sum (fun i (_ : i ∈ Finset.univ) => hterm i)
    simpa [Finset.sum_ite_eq'] using this
  have hexp := hsum.exp
  simp only [Function.update_eq_self] at hexp
  exact hexp

/-- C8: for every fitted model state (per-dimension closures `ds`, weight
vector `A`, anchor list `centers`, zero-floor shift `minimum`) and every
query point `x` and direction `dir`, the partial derivative of the
`potential` evaluator along `dir` at `x` is exactly the negation of the
`mean_force` evaluator there: the mean force is computed analytically
from the kernel derivatives with the same weights, and the constant
`minimum` shift drops out of the derivative. -/
theorem meanForce_is_neg_partial {n m : ℕ} (ds : Fin n → DimKernel) (A : Fin m → ℝ)
    (centers : Fin m → Fin n → ℝ) (minimum : ℝ) (x : Fin n → ℝ) (dir : Fin n) :
    HasDerivAt (fun t => potentialR ds A centers minimum (Function.update x dir t))
      (-meanForceR ds A centers x dir) (x dir) := by
  have hsum :
      HasDerivAt
        (fun t => ∑ j, A j * kernelR ds (fun i => Function.update x dir t i - centers j i))
        (∑ j, A j * gradientR ds (fun i => x i - centers j i) dir) (x dir) :=
    HasDerivAt.sum (fun j _ => (hasDerivAt_kernel_dir ds (centers j) x dir).const_mul (A j))
  have hfinal := hsum.sub_const minimum
  simp only [meanForceR, neg_neg]
  exact hfinal

/-! ## Claim theorems: late-binding capture in the kernel closures (C1) -/


/-- C1 (code bug): for the analyzer with the two non-periodic CVs
`wCV1`, `wCV2` (ranges 1 and 2) and one bin per dimension, `sigma = None`
gives the per-dimension variances `[1, 4]`; but the kernel closures built
by `free_energy_functions` read the loop variable `variance` only when
called (Python late binding), so dimension 0's exponent and derivative
are evaluated with dimension 1's variance 4: at `dx = 1` both dimensions
give exponent `-1/8` and dimension 0's derivative is `-1/4`, whereas
dimension 0's own variance (1) would give `-0.5*1²/1 = -1/2` and
`-1/1 = -1` as the claim requires. -/
theorem kernel_closure_late_binding_bug :
    variancesOf [wCV1, wCV2] [1, 1] SigmaArg.none = Except.ok [1, 4]
      ∧ exponentAt wOracles (mkClosureEnv wOracles [wCV1, wCV2] [1, 4]) 0 1 = -(1/8)
      ∧ exponentAt wOracles (mkClosureEnv wOracles [wCV1, wCV2] [1, 4]) 1 1 = -(1/8)
      ∧ derivativeAt wOracles (mkClosureEnv wOracles [wCV1, wCV2] [1, 4]) 0 1 = -(1/4)
      ∧ -(1/8 : ℚ) ≠ -(1/2)
      ∧ -(1/4 : ℚ) ≠ -1 := by
  refine ⟨?_, ?_, ?_, ?_, by norm_num, by norm_num⟩
  · norm_num [variancesOf, List.range_succ, List.mapM.loop, wCV1, wCV2]
    rfl
  · norm_num [exponentAt, mkClosureEnv, wCV1, wCV2]
  · norm_num [exponentAt, mkClosureEnv, wCV1, wCV2]
  · norm_num [derivativeAt, mkClosureEnv, wCV1, wCV2]

/-! ## Claim theorems: fitting with no anchors (C2) -/

theorem exceptBind_ok {α β : Type} (a : α) (f : α → Except PyErr β) :
    (Except.ok a >>= f) = f a := rfl

theorem exceptBind_err {α β : Type} (e : PyErr) (f : α → Except PyErr β) :
    ((Except.error e : Except PyErr α) >>= f) = Except.error e := rfl

theorem mapM_loop_const {α β : Type} (b : β) (l : List α) (acc : List β) :
    List.mapM.loop (fun _ => (pure b : Except PyErr β)) l acc
      = pure (acc.reverse ++ l.map fun _ => b) := by
  induction l generalizing acc with
  | nil => simp [List.mapM.loop]
  | cons a as ih => simp [List.mapM.loop, ih]

theorem mapM_const_pure {α β : Type} (l : List α) (b : β) :
    l.mapM (fun _ => (pure b : Except PyErr β)) = pure (l.map fun _ => b) := by
  simp [List.mapM, mapM_loop_const]

theorem flatten_map_nil {α β : Type} (l : List α) :
    (l.map fun _ => ([] : List β)).flatten = [] := by
  induction l with
  | nil => simp
  | cons a as ih => simp [ih]

theorem fit_no_anchors_valueError (o : FitOracles) (vars : List CollectiveVariable)
    (bins : List ℕ) (res : AnalyzerResult) (sigma : SigmaArg)
    (hc : pyZip res.centers = []) (hv : (variancesOf vars bins sigma).isOk = true) :
    freeEnergyFunctions o vars bins res sigma = Except.error PyErr.valueError := by
  obtain ⟨vs, hvs⟩ : ∃ vs, variancesOf vars bins sigma = Except.ok vs := by
    cases h : variancesOf vars bins sigma with
    | error e => rw [h] at hv; simp [Except.isOk, Except.toBool] at hv
    | ok vs => exact ⟨vs, rfl⟩
  simp only [freeEnergyFunctions, hvs, hc, exceptBind_ok, List.mapM_nil,
    mapM_const_pure, pure_bind, flatten_map_nil, vstack, List.isEmpty_nil,
    if_true, exceptBind_err]

theorem selectPositive_of_no_pos (counts : List ℕ) (xs : List ℚ)
    (h : counts.filter (fun c => 0 < c) = []) : selectPositive counts xs = [] := by
  induction counts generalizing xs with
  | nil => simp [selectPositive]
  | cons c cs ih =>
      rw [List.filter_cons] at h
      by_cases hc : 0 < c
      · simp [hc] at h
      · cases xs with
        | nil => simp [selectPositive]
        | cons x xs' =>
            simp only [hc, decide_eq_true_eq, if_neg] at h
            simp only [selectPositive, List.zip_cons_cons, List.filter_cons,
              decide_eq_true_eq, hc, if_false]
            exact ih xs' (by simpa using h)

theorem foldl_min_zero (cs : List (List ℚ)) :
    cs.foldl (fun a col => min a col.length) 0 = 0 := by
  induction cs with
  | nil => rfl
  | cons c cs ih => simpa using ih

theorem pyZip_nil_head (rest : List (List ℚ)) : pyZip ([] :: rest) = [] := by
  simp [pyZip, foldl_min_zero]

theorem analyzer_empty_hist_no_anchors (vars : List CollectiveVariable)
    (cvCols sCols : List (List ℚ)) (bins : List ℕ)
    (hh : (analyzerInit vars cvCols sCols bins).histogram = []) :
    pyZip (analyzerInit vars cvCols sCols bins).centers = [] := by
  simp only [analyzerInit] at hh ⊢
  cases hn : vars.length with
  | zero => simp [hn, pyZip]
  | succ k =>
      rw [List.range_succ_eq_map, List.map_cons]
      rw [selectPositive_of_no_pos _ _ hh]
      exact pyZip_nil_head _

/-- C2 (counterexample to the claim as stated): for the concrete analyzer
built from an empty sample table (one CV, one bin, no rows) the histogram
has no populated bin, and calling `free_energy_functions` raises the
generic numpy `ValueError` (from `np.vstack` on the empty coefficient
list) — not an `InsufficientDataError`, a class that does not exist in
the code. -/
theorem empty_table_error_not_insufficientData :
    (analyzerInit [wCV1] [[]] [[]] [1]).histogram = []
      ∧ freeEnergyFunctions wOracles [wCV1] [1] (analyzerInit [wCV1] [[]] [[]] [1])
          SigmaArg.none = Except.error PyErr.valueError
      ∧ (Except.error PyErr.valueError : Except PyErr FitResult)
          ≠ Except.error PyErr.insufficientData := by
  refine ⟨rfl, ?_, by simp⟩
  exact fit_no_anchors_valueError wOracles [wCV1] [1] _ SigmaArg.none
    (analyzer_empty_hist_no_anchors [wCV1] [[]] [[]] [1] rfl) rfl

/-- C2 (amended): for every analyzer whose histogram has zero populated
bins, `free_energy_functions` raises an error rather than returning a
fit — but the error is numpy's `ValueError` from `np.vstack` on the empty
coefficient list, raised during fit assembly, not a dedicated
insufficient-data error raised before computation begins (the variance
computation must itself succeed for execution to reach that point). -/
theorem empty_table_fit_raises_valueError (o : FitOracles)
    (vars : List CollectiveVariable) (cvCols sCols : List (List ℚ))
    (bins : List ℕ) (sigma : SigmaArg)
    (hh : (analyzerInit vars cvCols sCols bins).histogram = [])
    (hv : (variancesOf vars bins sigma).isOk = true) :
    freeEnergyFunctions o vars bins (analyzerInit vars cvCols sCols bins) sigma
      = Except.error PyErr.valueError :=
  fit_no_anchors_valueError o vars bins _ sigma
    (analyzer_empty_hist_no_anchors vars cvCols sCols bins hh) hv

/-- Witness for C2 (amended) at the concrete empty table. -/
theorem empty_table_fit_raises_valueError_witness :
    (analyzerInit [wCV1] [[]] [[]] [1]).histogram = []
      ∧ (variancesOf [wCV1] [1] SigmaArg.none).isOk = true
      ∧ freeEnergyFunctions wOracles [wCV1] [1] (analyzerInit [wCV1] [[]] [[]] [1])
          SigmaArg.none = Except.error PyErr.valueError :=
  ⟨rfl, rfl,
    empty_table_fit_raises_valueError wOracles [wCV1] [[]] [[]] [1] SigmaArg.none rfl rfl⟩

/-! ## Claim theorems: sigma length mismatch (C3) -/

theorem zip_take_len {α β : Type} : ∀ (xs : List α) (ys : List β),
    xs.zip ys = xs.zip (ys.take xs.length)
  | [], ys => by simp
  | x :: xs, [] => by simp
  | x :: xs, y :: ys => by
      simp only [List.zip_cons_cons, List.length_cons, List.take_succ_cons]
      rw [← zip_take_len xs ys]


/-- C3 (counterexample): calling `free_energy_functions` with one
declared CV but the two-element sigma list `[1, 2]` raises no error at
all — the call completes successfully, silently ignoring the extra
entry, instead of signalling a configuration error. -/
theorem sigma_length_mismatch_no_error :
    ([1, 2] : List ℚ).length ≠ [wCV1].length
      ∧ (freeEnergyFunctions wOracles [wCV1] [1] wRes (SigmaArg.list [1, 2])).isOk
          = true :=
  ⟨by simp, rfl⟩

/-- C3 (amended): `free_energy_functions` performs no sigma length check:
`zip` pairs the CVs with the variances and silently drops the variances
beyond the number of CVs, so a call with any sigma list behaves exactly
as the call with that list truncated to the first `len(variables)`
entries.  (A list that is too short instead produces an `IndexError`
from the kernel closure list during fit assembly, not a configuration
error beforehand.) -/
theorem sigma_list_truncated (o : FitOracles) (vars : List CollectiveVariable)
    (bins : List ℕ) (res : AnalyzerResult) (l : List ℚ) :
    freeEnergyFunctions o vars bins res (SigmaArg.list l)
      = freeEnergyFunctions o vars bins res (SigmaArg.list (l.take vars.length)) := by
  have henv : mkClosureEnv o vars (l.map fun v => (standardize v) ^ 2)
      = mkClosureEnv o vars ((l.take vars.length).map fun v => (standardize v) ^ 2) := by
    simp only [mkClosureEnv]
    rw [List.map_take, ← zip_take_len]
  simp only [freeEnergyFunctions, variancesOf, exceptBind_ok]
  rw [henv]

/-! ## Claim theorems: anchor set invariants (C9) -/

theorem selectPositive_length (counts : List ℕ) (xs : List ℚ)
    (h : xs.length = counts.length) :
    (selectPositive counts xs).length = (counts.filter (fun c => 0 < c)).length := by
  induction counts generalizing xs with
  | nil =>
      cases xs with
      | nil => rfl
      | cons x xs' => simp at h
  | cons c cs ih =>
      cases xs with
      | nil => simp at h
      | cons x xs' =>
          simp only [List.length_cons, Nat.add_right_cancel_iff] at h
          simp only [selectPositive, List.zip_cons_cons, List.filter_cons]
          have := ih xs' h
          simp only [selectPositive] at this
          by_cases hc : 0 < c
          · simp [hc, this]
          · simp [hc, this]

theorem cellCounts_length (bins : List ℕ) (ranges : List (ℚ × ℚ))
    (rows : List (List ℚ)) : (cellCounts bins ranges rows).length = numCells bins := by
  simp [cellCounts]

theorem cellMeans_length (bins : List ℕ) (ranges : List (ℚ × ℚ))
    (rows : List (List ℚ)) (vals : List ℚ) :
    (cellMeans bins ranges rows vals).length = numCells bins := by
  simp [cellMeans]

theorem map_cellMeans_getD_length (bins : List ℕ) (ranges : List (ℚ × ℚ))
    (rows : List (List ℚ)) (cols : List (List ℚ)) (i : ℕ) (h : i < cols.length) :
    (((cols.map (fun col => cellMeans bins ranges rows col)).getD i []).length)
      = numCells bins := by
  rw [List.getD_eq_getElem?_getD, List.getElem?_map]
  cases hx : cols[i]? with
  | none =>
      rw [List.getElem?_eq_none_iff] at hx
      omega
  | some c => simp [cellMeans_length]

/-- C9: after construction, every retained histogram count is strictly
positive (only non-empty cells survive the `np.where(histogram > 0)`
filter), `centers` and `mean_forces` hold one array per declared CV, and
(when the CV-column and sample-column lists match the declared CVs) every
one of those arrays has exactly one entry per retained histogram cell —
anchors are exactly the populated cells, in order. -/
theorem analyzer_anchor_invariants (vars : List CollectiveVariable)
    (cvCols sCols : List (List ℚ)) (bins : List ℕ)
    (hcv : cvCols.length = vars.length) (hs : sCols.length = vars.length) :
    (∀ h ∈ (analyzerInit vars cvCols sCols bins).histogram, 0 < h)
      ∧ (analyzerInit vars cvCols sCols bins).centers.length = vars.length
      ∧ (analyzerInit vars cvCols sCols bins).mean_forces.length = vars.length
      ∧ (∀ c ∈ (analyzerInit vars cvCols sCols bins).centers,
          c.length = (analyzerInit vars cvCols sCols bins).histogram.length)
      ∧ (∀ c ∈ (analyzerInit vars cvCols sCols bins).mean_forces,
          c.length = (analyzerInit vars cvCols sCols bins).histogram.length) := by
  simp only [analyzerInit]
  set ranges := vars.map (fun cv => (cv.min_value, cv.max_value)) with hranges
  set rows := (List.range ((sCols.headD []).length)).map
    (fun r => sCols.map (fun col => col.getD r 0)) with hrows
  set counts := cellCounts bins ranges rows with hcounts
  set forces := (vars.zip (cvCols.zip sCols)).map
    (fun p => (p.2.1.zip p.2.2).map (fun q => restraintForce p.1 (q.1 - q.2))) with hforces
  set meansAll := (sCols ++ forces).map (fun col => cellMeans bins ranges rows col)
    with hmeans
  have hforceslen : forces.length = vars.length := by
    simp [hforces, hcv, hs]
  have hmeanslen : meansAll.length = vars.length + vars.length := by
    simp [hmeans, hs, hforceslen]
  have hclen : counts.length = numCells bins := cellCounts_length bins ranges rows
  have hgetd : ∀ i : ℕ, i < vars.length + vars.length →
      ((meansAll.getD i []).length) = numCells bins := by
    intro i hi
    rw [hmeans]
    exact map_cellMeans_getD_length bins ranges rows (sCols ++ forces) i
      (by simp [hs, hforceslen]; omega)
  refine ⟨?_, by simp, by simp, ?_, ?_⟩
  · intro h hmem
    have := List.mem_filter.mp hmem
    simpa using this.2
  · intro c hmem
    obtain ⟨i, hi, hfc⟩ := List.mem_map.mp hmem
    rw [List.mem_range] at hi
    rw [← hfc]
    rw [selectPositive_length counts _ (by rw [hgetd i (by omega), hclen])]
  · intro c hmem
    obtain ⟨i, hi, hfc⟩ := List.mem_map.mp hmem
    rw [List.mem_range] at hi
    rw [← hfc]
    rw [selectPositive_length counts _ (by rw [hgetd (vars.length + i) (by omega), hclen])]

/-- Witness for C9 at a concrete one-CV analyzer with two samples and two
bins. -/
theorem analyzer_anchor_invariants_witness :
    ([[(0 : ℚ), 0]] : List (List ℚ)).length = [wCV1].length
      ∧ ([[(1 : ℚ)/8, 1/8]] : List (List ℚ)).length = [wCV1].length
      ∧ (analyzerInit [wCV1] [[0, 0]] [[1/8, 1/8]] [2]).centers.length = [wCV1].length
      ∧ (analyzerInit [wCV1] [[0, 0]] [[1/8, 1/8]] [2]).mean_forces.length
          = [wCV1].length :=
  ⟨rfl, rfl,
    (analyzer_anchor_invariants [wCV1] [[0, 0]] [[1/8, 1/8]] [2] rfl rfl).2.1,
    (analyzer_anchor_invariants [wCV1] [[0, 0]] [[1/8, 1/8]] [2] rfl rfl).2.2.1⟩
